import Mathlib

/-!
Verification of the CHIP-8 interpreter core (src/interpreter.rs, src/memory.rs,
src/display.rs) against its natural-language specification.

Shallow embedding conventions:
* `u8`/`u16` values are `Nat`s kept in range by the operations themselves.
* Rust's plain `+`/`-` on machine integers (which panic on overflow in a
  checked build) are modelled by the checked operations `u8add`, `u16add`,
  `u16sub`, `u16mul`, returning `none` on overflow; `wrapping_add`/
  `wrapping_sub`/`<<`-truncation are modelled with explicit `% 2 ^ w`.
* Array indexing out of bounds (a Rust panic) is likewise `none`.
* A panic anywhere makes the whole instruction return `none` (fatal).
* The random byte drawn by `rand::thread_rng().gen::<u8>()` in the `0xC`
  arm is passed in as an explicit input `rnd` (`rnd % 256` is the byte).
-/

namespace Chip8

/-! ## Memory (src/memory.rs) -/

/-- `MAX_SIZE` in memory.rs. -/
def MAX_SIZE : Nat := 0x1000

/-- `DISPLAY_LOC` in memory.rs. -/
def DISPLAY_LOC : Nat := 0x0F00

/-- `FONT_LOC` in memory.rs. -/
def FONT_LOC : Nat := 0x0050

/-- `FONT_CHAR_SIZE` in memory.rs. -/
def FONT_CHAR_SIZE : Nat := 5

/-- The 4096-cell byte store `Memory { data: [u8; MAX_SIZE] }`, as a total
map from addresses to cell contents; only indices `< MAX_SIZE` are ever
accessed by the (checked) operations below. -/
abbrev Mem := Nat → Nat

/-- `Memory::read`: `self.data[addr as usize]`; indexing past the end of the
4096-byte array is a Rust panic, modelled as `none`. -/
def Mem.read (m : Mem) (addr : Nat) : Option Nat :=
  if addr < MAX_SIZE then some (m addr) else none

/-- `Memory::write`: `self.data[addr as usize] = data`, with the same
bounds-check-as-panic as `Mem.read`. -/
def Mem.write (m : Mem) (addr data : Nat) : Option Mem :=
  if addr < MAX_SIZE then some (fun a => if a = addr then data else m a) else none

/-- `Memory::read_u16`: big-endian pair read, `lo << 8 | hi` where `lo` is
the byte at `addr` and `hi` the byte at `addr + 1` (the source's own naming;
`lo` is in fact the most significant byte). -/
def Mem.read16 (m : Mem) (addr : Nat) : Option Nat := do
  let lo ← m.read addr
  let hi ← m.read (addr + 1)
  some (lo <<< 8 ||| hi)

/-! ## Checked / wrapping machine arithmetic -/

/-- Rust `u8` `+` (panics on overflow in a checked build). -/
def u8add (a b : Nat) : Option Nat := if a + b < 256 then some (a + b) else none

/-- Rust `u16` `+`. -/
def u16add (a b : Nat) : Option Nat := if a + b < 65536 then some (a + b) else none

/-- Rust `u16` `-`. -/
def u16sub (a b : Nat) : Option Nat := if b ≤ a then some (a - b) else none

/-- Rust `u16` `*`. -/
def u16mul (a b : Nat) : Option Nat := if a * b < 65536 then some (a * b) else none

/-- Rust `u8::wrapping_sub` for operands below 256: `(a + 256 - b) % 256`. -/
def wrap8sub (a b : Nat) : Nat := (a + 256 - b) % 256

/-! ## Display pixel helpers (src/display.rs) -/

/-- `Display::pos_to_bit_index`: `x + 64 * y` (no overflow possible in u16
for u8 inputs). -/
def posToBitIndex (x y : Nat) : Nat := x + 64 * y

/-- `Display::pos_to_byte_addr`: `DISPLAY_LOC + bit_idx / 8`. -/
def posToByteAddr (x y : Nat) : Nat := DISPLAY_LOC + posToBitIndex x y / 8

/-- `Display::pos_to_bit_offset`: `bit_idx as u8 % 8` (the `u8` cast is the
inner `% 256`). -/
def posToBitOffset (x y : Nat) : Nat := posToBitIndex x y % 256 % 8

/-- `Display::read_pixel`: read the byte holding the pixel and extract
`(byte >> (7 - offset)) & 1`, written in `div`/`mod` form. -/
def readPixel (m : Mem) (x y : Nat) : Option Nat :=
  (m.read (posToByteAddr x y)).map (fun b => b / 2 ^ (7 - posToBitOffset x y) % 2)

/-- `Display::write_pixel`: XOR the byte holding the pixel with
`0b1000_0000 >> offset` (= `2 ^ (7 - offset)`, since the offset is < 8). -/
def writePixel (m : Mem) (x y : Nat) : Option Mem :=
  (m.read (posToByteAddr x y)).bind (fun cur =>
    m.write (posToByteAddr x y) (cur ^^^ 2 ^ (7 - posToBitOffset x y)))

/-- The pure value of `Display::read_pixel` on an in-range coordinate: the
bit of the framebuffer at `(x, y)`. -/
def pixVal (m : Mem) (x y : Nat) : Nat :=
  m (posToByteAddr x y) / 2 ^ (7 - posToBitOffset x y) % 2

/-! ## Interpreter state (src/interpreter.rs) -/

/-- `STACK_SIZE` in interpreter.rs (note: `0xff = 255`, not 256). -/
def STACK_SIZE : Nat := 0xff

/-- The `Interpreter` struct: stack, stack counter, index register, the 16
general registers, program counter, the two timers, the key vector and the
halt flag. -/
structure Interp where
  stack : Nat → Nat
  sc : Nat
  vi : Nat
  vx : Nat → Nat
  pc : Nat
  dt : Nat
  st : Nat
  keyHeld : Nat → Bool
  stop : Bool

/-- `Interpreter::new()`. -/
def initInterp : Interp :=
  { stack := fun _ => 0, sc := 0, vi := 0, vx := fun _ => 0, pc := 0x0200,
    dt := 0, st := 0, keyHeld := fun _ => false, stop := false }

/-- `Interpreter::set_vx`: `self.vx[x as usize] = data`. -/
def Interp.setVx (s : Interp) (x data : Nat) : Interp :=
  { s with vx := fun i => if i = x then data else s.vx i }

/-- `Interpreter::set_vf`: `self.vx[15] = data`. -/
def Interp.setVf (s : Interp) (data : Nat) : Interp :=
  { s with vx := fun i => if i = 15 then data else s.vx i }

/-- `Interpreter::stack_push`: `self.stack[self.sc as usize] = value;
self.sc += 1`. Pushing with `sc = 255` indexes past the 255-entry stack
array, a panic. -/
def Interp.stackPush (s : Interp) (v : Nat) : Option Interp :=
  if s.sc < STACK_SIZE then
    some { s with stack := fun i => if i = s.sc then v else s.stack i, sc := s.sc + 1 }
  else none

/-- `Interpreter::stack_pop`: `self.sc -= 1; self.stack[self.sc as usize]`.
Popping with `sc = 0` underflows the `u8` counter (a panic in a checked
build; in a release build the wrapped index 255 is out of bounds — fatal
either way), modelled as `none`. -/
def Interp.stackPop (s : Interp) : Option (Nat × Interp) :=
  if s.sc = 0 then none
  else some (s.stack (s.sc - 1), { s with sc := s.sc - 1 })

/-- `Interpreter::get_first_key_pressed`: index of the first held key. -/
def getFirstKeyPressed (s : Interp) : Option Nat :=
  (List.range 16).find? (fun k => s.keyHeld k)

/-! ## Opcode field extraction (src/interpreter.rs)

Each is the `div`/`mod` form of the source's mask-and-shift, e.g.
`mode = (opcode & 0xF000) >> 12 = opcode / 4096 % 16`. -/

/-- `Interpreter::mode`. -/
def mode (op : Nat) : Nat := op / 4096 % 16

/-- `Interpreter::x`. -/
def xNib (op : Nat) : Nat := op / 256 % 16

/-- `Interpreter::y`. -/
def yNib (op : Nat) : Nat := op / 16 % 16

/-- `Interpreter::n`. -/
def nNib (op : Nat) : Nat := op % 16

/-- `Interpreter::nn`. -/
def nnByte (op : Nat) : Nat := op % 256

/-- `Interpreter::nnn`. -/
def nnnAddr (op : Nat) : Nat := op % 4096

/-! ## The execute loops -/

/-- The `0x0E0` clear-screen loop: `for pixel_addr in 0x00..0xFF`, i.e. the
`k` iterations `pixel_addr = 0, 1, ..., k - 1` (the source runs it with
`k = 0xFF = 255`, an exclusive upper bound). -/
def clearLoop (m : Mem) : Nat → Option Mem
  | 0 => some m
  | k + 1 => (clearLoop m k).bind (fun m' => m'.write (DISPLAY_LOC + k) 0)

/-- One iteration of the inner sprite loop of `0xD` at column `c`: test
`(sprite_byte >> (7 - c)) & 1`; on a set bit compute `vx + col` / `vy + row`
(checked u8 additions), clip to the 64×32 screen, read the current pixel,
set VF on collision, then XOR-write the pixel. -/
def drawBit (vxv vyv byte r c : Nat) (s : Interp) (m : Mem) : Option (Interp × Mem) :=
  if byte / 2 ^ (7 - c) % 2 = 1 then
    (u8add vxv c).bind (fun px =>
      (u8add vyv r).bind (fun py =>
        if px < 64 ∧ py < 32 then
          (readPixel m px py).bind (fun cur =>
            let s' := if cur = 1 then s.setVf 1 else s
            (writePixel m px py).map (fun m' => (s', m')))
        else some (s, m)))
  else some (s, m)

/-- The inner sprite loop of `0xD`: columns `0, 1, ..., cmax - 1` in order
(the source runs it with `cmax = 8`). -/
def drawCols (vxv vyv byte r : Nat) : Nat → Interp → Mem → Option (Interp × Mem)
  | 0, s, m => some (s, m)
  | c + 1, s, m =>
    (drawCols vxv vyv byte r c s m).bind (fun sm =>
      drawBit vxv vyv byte r c sm.1 sm.2)

/-- The outer sprite loop of `0xD`: rows `0, 1, ..., n - 1` in order, each
reading its sprite byte `memory.read(vi + row)` from the current memory. -/
def drawRows (vxv vyv vi : Nat) : Nat → Interp → Mem → Option (Interp × Mem)
  | 0, s, m => some (s, m)
  | r + 1, s, m =>
    (drawRows vxv vyv vi r s m).bind (fun sm =>
      (sm.2.read (vi + r)).bind (fun byte =>
        drawCols vxv vyv byte r 8 sm.1 sm.2))

/-- The `0x55` register-dump loop: `for x in 0..(x_max + 1)` write
`vx[x]` to `vi + x` (checked u16 address arithmetic, checked store). -/
def storeRegs (s : Interp) (vi : Nat) : Nat → Mem → Option Mem
  | 0, m => some m
  | k + 1, m =>
    (storeRegs s vi k m).bind (fun m' =>
      (u16add vi k).bind (fun a => m'.write a (s.vx k)))

/-- The `0x65` register-load loop: `for x in 0..(x_max + 1)` read
`vi + x` into `vx[x]`. -/
def loadRegs (vi : Nat) (m : Mem) : Nat → Interp → Option Interp
  | 0, s => some s
  | k + 1, s =>
    (loadRegs vi m k s).bind (fun s' =>
      (u16add vi k).bind (fun a =>
        (m.read a).map (fun v => s'.setVx k v)))

/-! ## exec -/

/-- The `0x0` arm of `exec`: clear screen (`0x0E0`), return (`0x0EE`),
otherwise an "Unkown opcode" panic. -/
def exec0 (s : Interp) (m : Mem) (op : Nat) : Option (Interp × Mem) :=
  if nnnAddr op = 0x0E0 then (clearLoop m 0xFF).map (fun m' => (s, m'))
  else if nnnAddr op = 0x0EE then
    (s.stackPop).map (fun p => ({ p.2 with pc := p.1 }, m))
  else none

/-- The `0x8` arm of `exec`: the ALU instructions. Each arithmetic/shift
variant computes its flag from the pre-read `vx`/`vy`, stores the primary
result with `set_vx`, then stores the flag with `set_vf`. -/
def exec8 (s : Interp) (op : Nat) : Option Interp :=
  let x := xNib op
  let y := yNib op
  let vx := s.vx x
  let vy := s.vx y
  if nNib op = 0x0 then some (s.setVx x vy)
  else if nNib op = 0x1 then some (s.setVx x (vx ||| vy))
  else if nNib op = 0x2 then some (s.setVx x (vx &&& vy))
  else if nNib op = 0x3 then some (s.setVx x (Nat.xor vx vy))
  else if nNib op = 0x4 then
    some ((s.setVx x ((vx + vy) % 256)).setVf (if 255 < vx + vy then 1 else 0))
  else if nNib op = 0x5 then
    some ((s.setVx x (wrap8sub vx vy)).setVf (if vx < vy then 0 else 1))
  else if nNib op = 0x7 then
    some ((s.setVx x (wrap8sub vy vx)).setVf (if vy < vx then 0 else 1))
  else if nNib op = 0x6 then
    some ((s.setVx x (vx / 2)).setVf (vx % 2))
  else if nNib op = 0xE then
    some ((s.setVx x (vx * 2 % 256)).setVf (vx / 128 % 2))
  else none

/-- The `0xE` arm of `exec`: the key-skip instructions. The source indexes
`key_held[vx as usize]` before dispatching on `nn`, so `vx ≥ 16` is a panic
regardless of `nn`; an unknown `nn` is a panic. -/
def execE (s : Interp) (m : Mem) (op : Nat) : Option (Interp × Mem) :=
  if s.vx (xNib op) < 16 then
    let held := s.keyHeld (s.vx (xNib op))
    if nnByte op = 0x9E then
      if held then (u16add s.pc 2).map (fun p => ({ s with pc := p }, m))
      else some (s, m)
    else if nnByte op = 0xA1 then
      if held then some (s, m)
      else (u16add s.pc 2).map (fun p => ({ s with pc := p }, m))
    else none
  else none

/-- The `0xF` arm of `exec`: timers, index arithmetic, get-key, font
addressing, BCD, and the register block transfers. -/
def execF (s : Interp) (m : Mem) (op : Nat) : Option (Interp × Mem) :=
  let x := xNib op
  let vxv := s.vx x
  if nnByte op = 0x07 then some (s.setVx x s.dt, m)
  else if nnByte op = 0x15 then some ({ s with dt := vxv }, m)
  else if nnByte op = 0x18 then some ({ s with st := vxv }, m)
  else if nnByte op = 0x1E then some ({ s with vi := (s.vi + vxv) % 65536 }, m)
  else if nnByte op = 0x0A then
    match getFirstKeyPressed s with
    | some k => some (s.setVx x k, m)
    | none => (u16sub s.pc 2).map (fun p => ({ s with pc := p }, m))
  else if nnByte op = 0x29 then
    (u16mul vxv FONT_CHAR_SIZE).bind (fun off =>
      (u16add FONT_LOC off).map (fun a => ({ s with vi := a }, m)))
  else if nnByte op = 0x33 then
    (m.write s.vi (vxv / 100 % 10)).bind (fun m1 =>
      (u16add s.vi 1).bind (fun a1 =>
        (m1.write a1 (vxv / 10 % 10)).bind (fun m2 =>
          (u16add s.vi 2).bind (fun a2 =>
            (m2.write a2 (vxv / 1 % 10)).map (fun m3 => (s, m3))))))
  else if nnByte op = 0x55 then (storeRegs s s.vi (x + 1) m).map (fun m' => (s, m'))
  else if nnByte op = 0x65 then (loadRegs s.vi m (x + 1) s).map (fun s' => (s', m))
  else none

/-- `Interpreter::exec`: the all-zero word sets the halt flag and returns;
otherwise dispatch on the top nibble. Unknown opcodes, sub-opcodes and the
nonzero trailing nibble of `5xy?`/`9xy?` are panics (`none`). -/
def exec (s : Interp) (m : Mem) (op rnd : Nat) : Option (Interp × Mem) :=
  if op = 0 then some ({ s with stop := true }, m)
  else if mode op = 0x0 then exec0 s m op
  else if mode op = 0x1 then some ({ s with pc := nnnAddr op }, m)
  else if mode op = 0x2 then
    (s.stackPush s.pc).map (fun s' => ({ s' with pc := nnnAddr op }, m))
  else if mode op = 0x3 then
    if s.vx (xNib op) = nnByte op then
      (u16add s.pc 2).map (fun p => ({ s with pc := p }, m))
    else some (s, m)
  else if mode op = 0x4 then
    if s.vx (xNib op) ≠ nnByte op then
      (u16add s.pc 2).map (fun p => ({ s with pc := p }, m))
    else some (s, m)
  else if mode op = 0x5 then
    if nNib op ≠ 0 then none
    else if s.vx (xNib op) = s.vx (yNib op) then
      (u16add s.pc 2).map (fun p => ({ s with pc := p }, m))
    else some (s, m)
  else if mode op = 0x6 then some (s.setVx (xNib op) (nnByte op), m)
  else if mode op = 0x7 then
    some (s.setVx (xNib op) ((s.vx (xNib op) + nnByte op) % 256), m)
  else if mode op = 0x8 then (exec8 s op).map (fun s' => (s', m))
  else if mode op = 0x9 then
    if nNib op ≠ 0 then none
    else if s.vx (xNib op) ≠ s.vx (yNib op) then
      (u16add s.pc 2).map (fun p => ({ s with pc := p }, m))
    else some (s, m)
  else if mode op = 0xA then some ({ s with vi := nnnAddr op }, m)
  else if mode op = 0xB then
    (u16add (nnnAddr op) (s.vx 0)).map (fun p => ({ s with pc := p }, m))
  else if mode op = 0xC then some (s.setVx (xNib op) ((rnd % 256) &&& nnByte op), m)
  else if mode op = 0xD then
    (u16add s.vi (nNib op)).bind (fun _ =>
      drawRows (s.vx (xNib op)) (s.vx (yNib op)) s.vi (nNib op) s m)
  else if mode op = 0xE then execE s m op
  else if mode op = 0xF then execF s m op
  else none

/-- `Interpreter::step`: fetch the big-endian word at `pc`, advance `pc`
by 2 (checked u16 add), then execute. -/
def step (s : Interp) (m : Mem) (rnd : Nat) : Option (Interp × Mem) :=
  (m.read16 s.pc).bind (fun op =>
    (u16add s.pc 2).bind (fun p =>
      exec { s with pc := p } m op rnd))

end Chip8

namespace Chip8

/-! ## Basic lemmas about the embedding -/

/-- The all-zero memory, used as a concrete input in witnesses. -/
def memZero : Mem := fun _ => 0

theorem stop_set_vx (s : Interp) : ({ s with stop := true } : Interp).vx = s.vx := rfl

theorem stop_set_pc (s : Interp) : ({ s with stop := true } : Interp).pc = s.pc := rfl

theorem stop_set_sc (s : Interp) : ({ s with stop := true } : Interp).sc = s.sc := rfl

theorem stop_set_vi (s : Interp) : ({ s with stop := true } : Interp).vi = s.vi := rfl

theorem stop_set_dt (s : Interp) : ({ s with stop := true } : Interp).dt = s.dt := rfl

theorem stop_set_st (s : Interp) : ({ s with stop := true } : Interp).st = s.st := rfl

theorem mode_zero : mode 0 = 0 := rfl

theorem op_ne_zero {op k : Nat} (h : mode op = k) (hk : k ≠ 0) : op ≠ 0 := by
  intro h0
  subst h0
  exact hk (mode_zero ▸ h.symm)

theorem exec_at_mode0 (s : Interp) (m : Mem) (op rnd : Nat)
    (h0 : op ≠ 0) (h : mode op = 0x0) : exec s m op rnd = exec0 s m op := by
  unfold exec
  simp [h0, h]

theorem exec_at_mode8 (s : Interp) (m : Mem) (op rnd : Nat) (h : mode op = 0x8) :
    exec s m op rnd = (exec8 s op).map (fun s' => (s', m)) := by
  unfold exec
  simp [op_ne_zero h (by decide), h]

theorem exec_at_modeA (s : Interp) (m : Mem) (op rnd : Nat) (h : mode op = 0xA) :
    exec s m op rnd = some ({ s with vi := nnnAddr op }, m) := by
  unfold exec
  simp [op_ne_zero h (by decide), h]

theorem exec_at_modeD (s : Interp) (m : Mem) (op rnd : Nat) (h : mode op = 0xD) :
    exec s m op rnd = (u16add s.vi (nNib op)).bind (fun _ =>
      drawRows (s.vx (xNib op)) (s.vx (yNib op)) s.vi (nNib op) s m) := by
  unfold exec
  simp [op_ne_zero h (by decide), h]

theorem exec_at_modeF (s : Interp) (m : Mem) (op rnd : Nat) (h : mode op = 0xF) :
    exec s m op rnd = execF s m op := by
  unfold exec
  simp [op_ne_zero h (by decide), h]

/-- The clear-screen loop zeroes exactly the `k` bytes `DISPLAY_LOC ..
DISPLAY_LOC + k - 1` (all writes are in range when `DISPLAY_LOC + k` is). -/
theorem clearLoop_spec (m : Mem) (k : Nat) (hk : DISPLAY_LOC + k ≤ MAX_SIZE) :
    clearLoop m k
      = some (fun a => if DISPLAY_LOC ≤ a ∧ a < DISPLAY_LOC + k then 0 else m a) := by
  induction k with
  | zero =>
    unfold clearLoop
    congr 1
    funext a
    simp only [Nat.add_zero]
    rw [if_neg (by omega)]
  | succ k ih =>
    unfold clearLoop
    rw [ih (by omega)]
    simp only [Option.bind_eq_bind, Option.some_bind, Mem.write,
      if_pos (show DISPLAY_LOC + k < MAX_SIZE by omega)]
    congr 1
    funext a
    by_cases ha : a = DISPLAY_LOC + k
    · rw [if_pos ha, if_pos (by omega)]
    · rw [if_neg ha]
      by_cases hb : DISPLAY_LOC ≤ a ∧ a < DISPLAY_LOC + k
      · rw [if_pos hb, if_pos (by omega)]
      · rw [if_neg hb, if_neg (by omega)]

end Chip8

namespace Chip8

/-! ## C2: the 00E0 clear-screen instruction -/

/-- C2: executing `00E0` zeroes exactly the 255 framebuffer bytes at
addresses `0x0F00 .. 0x0FFE` and leaves every other byte — including the
last framebuffer byte `0x0FFF` — unchanged, because the source loop range
`0x00..0xFF` is exclusive at 255. This refutes the claim that all 256
bytes through `0x0FFF` are zeroed. -/
theorem exec_clear_screen (s : Interp) (m : Mem) (rnd : Nat) (a : Nat) :
    (exec s m 0x00E0 rnd).map (fun r => r.2 a)
      = some (if 0x0F00 ≤ a ∧ a < 0x0FFF then 0 else m a) := by
  rw [exec_at_mode0 s m 0x00E0 rnd (by decide) (by decide)]
  unfold exec0
  rw [if_pos (by decide), clearLoop_spec m 0xFF (by decide)]
  simp only [Option.map_some']
  norm_num [DISPLAY_LOC]

set_option maxRecDepth 8192 in
/-- C2, evaluated at a failing input: starting from an all-`0xFF` memory,
`00E0` leaves the framebuffer byte at `0x0FFF` equal to `0xFF` while the
bytes at `0x0F00` and `0x0FFE` are cleared. -/
theorem exec_clear_screen_failing_input :
    (exec initInterp (fun _ => 0xFF) 0x00E0 0).map (fun r => (r.2 0xF00, r.2 0xFFE, r.2 0xFFF))
      = some (0, 0, 0xFF) := by
  decide

/-! ## C8: return with an empty call stack is fatal -/

/-- C8: executing `00EE` with stack counter zero is fatal: the `u8`
decrement of `sc` underflows (and in an unchecked build the wrapped stack
index 255 is out of bounds), so execution stops with an error rather than
skipping the instruction or continuing with corrupted state. -/
theorem exec_return_empty_stack_fatal (s : Interp) (m : Mem) (rnd : Nat)
    (h : s.sc = 0) : exec s m 0x00EE rnd = none := by
  rw [exec_at_mode0 s m 0x00EE rnd (by decide) (by decide)]
  unfold exec0 Interp.stackPop
  rw [if_neg (by decide), if_pos (by decide), if_pos h]
  rfl

/-- Witness for C8 at a concrete input: the freshly constructed interpreter
has `sc = 0`, and `00EE` faults on it. -/
theorem exec_return_empty_stack_fatal_witness :
    exec initInterp memZero 0x00EE 0 = none :=
  exec_return_empty_stack_fatal initInterp memZero 0 rfl

/-! ## C4: the claimed 12-bit invariant on the index register -/

/-- Concrete state refuting C4: `I = 0xFFF` and `V0 = 1`. -/
def c4State : Interp := { initInterp with vi := 0xFFF, vx := fun i => if i = 0 then 1 else 0 }

/-- C4 counterexample: `I ≤ 0xFFF` is not preserved by `Fx1E`. From
`I = 0xFFF`, `V0 = 1` (a well-formed state), executing `F01E` leaves
`I = 0x1000 > 0xFFF`: the add-to-index arm uses `wrapping_add` with no
12-bit mask. -/
theorem index_invariant_counterexample :
    ¬ (∀ (s : Interp) (m : Mem) (rnd op : Nat),
        (∀ i, s.vx i < 256) → s.vi ≤ 0xFFF →
        ∀ v, (exec s m op rnd).map (fun r => r.1.vi) = some v → v ≤ 0xFFF) := by
  intro h
  have hv : (exec c4State memZero 0xF01E 0).map (fun r => r.1.vi) = some 0x1000 := rfl
  have := h c4State memZero 0 0xF01E
    (fun i => by unfold c4State initInterp; dsimp only; split <;> omega)
    (by unfold c4State; norm_num) 0x1000 hv
  omega

/-- C4 (amended): `I ≤ 0xFFF` holds in the initial state and is preserved
by `Annn` and by `Fx29` (whose result is at most `0x54B`); but `Fx1E` sets
`I := (I + Vx) mod 2^16` with no 12-bit mask, which can exceed `0xFFF`, so
the bound is not an invariant of every reachable state. -/
theorem index_register_bounds (s : Interp) (m : Mem) (rnd op : Nat)
    (r : Interp × Mem) (hwf : ∀ i, s.vx i < 256) (hvi : s.vi ≤ 0xFFF)
    (hexec : exec s m op rnd = some r) :
    initInterp.vi ≤ 0xFFF
    ∧ (mode op = 0xA → r.1.vi ≤ 0xFFF)
    ∧ (mode op = 0xF → nnByte op = 0x29 → r.1.vi ≤ 0xFFF)
    ∧ (mode op = 0xF → nnByte op = 0x1E →
        r.1.vi = (s.vi + s.vx (xNib op)) % 65536) := by
  refine ⟨by norm_num [initInterp], ?_, ?_, ?_⟩
  · intro hA
    rw [exec_at_modeA s m op rnd hA] at hexec
    obtain rfl : ({ s with vi := nnnAddr op }, m) = r := by
      exact Option.some.inj hexec
    have : nnnAddr op < 4096 := Nat.mod_lt _ (by norm_num)
    simpa [nnnAddr] using by omega
  · intro hF h29
    rw [exec_at_modeF s m op rnd hF] at hexec
    unfold execF at hexec
    rw [h29] at hexec
    have hvx := hwf (xNib op)
    simp only [show (0x29 : Nat) ≠ 0x07 by decide, show (0x29 : Nat) ≠ 0x15 by decide,
      show (0x29 : Nat) ≠ 0x18 by decide, show (0x29 : Nat) ≠ 0x1E by decide,
      show (0x29 : Nat) ≠ 0x0A by decide, reduceIte] at hexec
    have h1 : s.vx (xNib op) * FONT_CHAR_SIZE < 65536 := by unfold FONT_CHAR_SIZE; omega
    have h2 : FONT_LOC + s.vx (xNib op) * FONT_CHAR_SIZE < 65536 := by
      unfold FONT_LOC FONT_CHAR_SIZE; omega
    simp only [u16mul, if_pos h1, Option.some_bind, u16add, if_pos h2,
      Option.map_some'] at hexec
    obtain rfl : ({ s with vi := FONT_LOC + s.vx (xNib op) * FONT_CHAR_SIZE }, m) = r :=
      Option.some.inj hexec
    unfold FONT_LOC FONT_CHAR_SIZE
    dsimp only
    omega
  · intro hF h1E
    rw [exec_at_modeF s m op rnd hF] at hexec
    unfold execF at hexec
    rw [h1E] at hexec
    simp only [show (0x1E : Nat) ≠ 0x07 by decide, show (0x1E : Nat) ≠ 0x15 by decide,
      show (0x1E : Nat) ≠ 0x18 by decide, reduceIte] at hexec
    obtain rfl : ({ s with vi := (s.vi + s.vx (xNib op)) % 65536 }, m) = r := by
      simpa using hexec
    rfl

/-- Witness for C4's amended theorem at a concrete input: `A123` on the
fresh interpreter yields `I = 0x123 ≤ 0xFFF`. -/
theorem index_register_bounds_witness :
    initInterp.vi ≤ 0xFFF
    ∧ (mode 0xA123 = 0xA → ((({ initInterp with vi := nnnAddr 0xA123 } : Interp), memZero) : Interp × Mem).1.vi ≤ 0xFFF)
    ∧ (mode 0xA123 = 0xF → nnByte 0xA123 = 0x29 → (({ initInterp with vi := nnnAddr 0xA123 } : Interp), memZero).1.vi ≤ 0xFFF)
    ∧ (mode 0xA123 = 0xF → nnByte 0xA123 = 0x1E →
        (({ initInterp with vi := nnnAddr 0xA123 } : Interp), memZero).1.vi
          = (initInterp.vi + initInterp.vx (xNib 0xA123)) % 65536) :=
  index_register_bounds initInterp memZero 0 0xA123 _
    (fun _ => by norm_num [initInterp]) (by norm_num [initInterp]) rfl

/-! ## C10: Fx29 does not validate Vx against the 16-glyph range -/

/-- C10: `Fx29` performs no range check on `Vx`: for every 8-bit value of
`Vx` it succeeds and sets `I := FONT_LOC + Vx * FONT_CHAR_SIZE`
(`0x050 + 5·Vx`), leaving everything else unchanged. The result is at most
`0x54B` (reached at `Vx = 0xFF`), and for `Vx > 0xF` it lies at or beyond
`0x0A0`, the end of the 16-glyph font table. -/
theorem font_address_no_validation (s : Interp) (m : Mem) (rnd x : Nat)
    (hx : x < 16) (ha : s.vx x < 256) :
    exec s m (0xF029 + x * 256) rnd
      = some ({ s with vi := FONT_LOC + s.vx x * FONT_CHAR_SIZE }, m)
    ∧ FONT_LOC + s.vx x * FONT_CHAR_SIZE ≤ 0x54B
    ∧ (0xF < s.vx x → 0x0A0 ≤ FONT_LOC + s.vx x * FONT_CHAR_SIZE) := by
  have hxn : xNib (0xF029 + x * 256) = x := by unfold xNib; omega
  refine ⟨?_, ?_, ?_⟩
  · rw [exec_at_modeF s m _ rnd (by unfold mode; omega)]
    unfold execF
    rw [hxn]
    rw [show nnByte (0xF029 + x * 256) = 0x29 from by unfold nnByte; omega]
    simp only [show (0x29 : Nat) ≠ 0x07 by decide, show (0x29 : Nat) ≠ 0x15 by decide,
      show (0x29 : Nat) ≠ 0x18 by decide, show (0x29 : Nat) ≠ 0x1E by decide,
      show (0x29 : Nat) ≠ 0x0A by decide, reduceIte]
    have h1 : s.vx x * FONT_CHAR_SIZE < 65536 := by unfold FONT_CHAR_SIZE; omega
    have h2 : FONT_LOC + s.vx x * FONT_CHAR_SIZE < 65536 := by
      unfold FONT_LOC FONT_CHAR_SIZE; omega
    simp only [u16mul, if_pos h1, Option.some_bind, u16add, if_pos h2, Option.map_some']
  · unfold FONT_LOC FONT_CHAR_SIZE; omega
  · intro h; unfold FONT_LOC FONT_CHAR_SIZE; omega

/-- Concrete state for the C10 witness: `V0 = 0xFF`. -/
def c10State : Interp := initInterp.setVx 0 0xFF

/-- Witness for C10 at a concrete input: with `V0 = 0xFF` (far beyond the
glyph range), `F029` succeeds and leaves `I = 0x54B`, past the font table. -/
theorem font_address_no_validation_witness :
    exec c10State memZero (0xF029 + 0 * 256) 0
      = some ({ c10State with vi := FONT_LOC + c10State.vx 0 * FONT_CHAR_SIZE }, memZero)
    ∧ FONT_LOC + c10State.vx 0 * FONT_CHAR_SIZE ≤ 0x54B
    ∧ (0xF < c10State.vx 0 → 0x0A0 ≤ FONT_LOC + c10State.vx 0 * FONT_CHAR_SIZE) :=
  font_address_no_validation c10State memZero 0 0 (by norm_num)
    (by norm_num [c10State, initInterp, Interp.setVx])

end Chip8

namespace Chip8

/-! ## C5 / C6: the 8xyN ALU arms -/

/-- The primary result each arithmetic/shift arm of `0x8` stores into `Vx`
(`N ∈ {4, 5, 6, 7, E}`), as a function of the pre-read operand values. -/
def aluRes (n a b : Nat) : Nat :=
  if n = 4 then (a + b) % 256
  else if n = 5 then wrap8sub a b
  else if n = 7 then wrap8sub b a
  else if n = 6 then a / 2
  else a * 2 % 256

/-- The carry/borrow/shifted-out flag each arithmetic/shift arm of `0x8`
stores into `VF` last, as a function of the pre-read operand values. -/
def aluFlag (n a b : Nat) : Nat :=
  if n = 4 then (if 255 < a + b then 1 else 0)
  else if n = 5 then (if a < b then 0 else 1)
  else if n = 7 then (if b < a then 0 else 1)
  else if n = 6 then a % 2
  else a / 128 % 2

/-- Bundled description of the five arithmetic/shift arms of `exec8`: the
final state is exactly `set_vx` of the primary result followed by `set_vf`
of the flag, both computed from the operand values read at entry. -/
theorem exec8_alu (s : Interp) (x y N : Nat) (hx : x < 16) (hy : y < 16)
    (hN : N = 4 ∨ N = 5 ∨ N = 6 ∨ N = 7 ∨ N = 0xE) :
    exec8 s (0x8000 + x * 256 + y * 16 + N)
      = some ((s.setVx x (aluRes N (s.vx x) (s.vx y))).setVf
          (aluFlag N (s.vx x) (s.vx y))) := by
  have hxn : xNib (0x8000 + x * 256 + y * 16 + N) = x := by unfold xNib; omega
  have hyn : yNib (0x8000 + x * 256 + y * 16 + N) = y := by unfold yNib; omega
  have hnn : nNib (0x8000 + x * 256 + y * 16 + N) = N := by unfold nNib; omega
  unfold exec8
  rw [hxn, hyn, hnn]
  rcases hN with rfl | rfl | rfl | rfl | rfl <;>
    simp [aluRes, aluFlag]

/-- C5: for each `8xyN` arithmetic/shift instruction (`N ∈ {4,5,6,7,E}`)
and all register indices including `x = 0xF` or `y = 0xF`, the final state
is `set_vx x (result) ` followed by `set_vf (flag)`, where both the result
and the flag are computed from the operand values read before any write:
the flag write is the last effect (so for `x = 0xF` the flag is what
remains in `VF`), and the flag computation never reads its own output. -/
theorem alu_flag_written_last (s : Interp) (m : Mem) (rnd x y N : Nat)
    (hx : x < 16) (hy : y < 16)
    (hN : N = 4 ∨ N = 5 ∨ N = 6 ∨ N = 7 ∨ N = 0xE) :
    exec s m (0x8000 + x * 256 + y * 16 + N) rnd
      = some (((s.setVx x (aluRes N (s.vx x) (s.vx y))).setVf
          (aluFlag N (s.vx x) (s.vx y)), m)) := by
  rw [exec_at_mode8 s m _ rnd (by unfold mode; omega),
    exec8_alu s x y N hx hy hN]
  rfl

/-- Concrete state for the C5 witness: `VE = 200` and `VF = 100`, so the
add `8EF4` both uses `VF` as an operand and overwrites it with the carry. -/
def c5State : Interp := (initInterp.setVx 0xE 200).setVx 0xF 100

/-- Witness for C5 at a concrete input: `8EF4` on `VE = 200`, `VF = 100`
stores `(200 + 100) % 256 = 44` into `VE` and then the carry `1` into `VF`,
the flag computed from the pre-write operands. -/
theorem alu_flag_written_last_witness :
    (exec c5State memZero (0x8000 + 0xE * 256 + 0xF * 16 + 4) 0).map
        (fun r => (r.1.vx 0xE, r.1.vx 0xF))
      = some (44, 1) := by
  rw [alu_flag_written_last c5State memZero 0 0xE 0xF 4 (by norm_num) (by norm_num)
    (Or.inl rfl)]
  rfl

/-- C6: for all 8-bit operand values, `8xy4` stores `(Vx + Vy) mod 256`
into `Vx` (when `x ≠ 0xF`, i.e. the target is not the flag register itself)
and sets `VF` to 1 exactly when `Vx + Vy > 255`; `8xy5` stores
`(Vx + 256 - Vy) mod 256` (the wrapped difference) into `Vx` and sets `VF`
to 1 exactly when `Vy ≤ Vx` (no borrow), else 0. -/
theorem add_sub_semantics (s : Interp) (m : Mem) (rnd x y : Nat)
    (hx : x < 16) (hy : y < 16) :
    ((exec s m (0x8000 + x * 256 + y * 16 + 4) rnd).map (fun r => r.1.vx 15)
        = some (if 255 < s.vx x + s.vx y then 1 else 0))
    ∧ (x ≠ 15 → (exec s m (0x8000 + x * 256 + y * 16 + 4) rnd).map (fun r => r.1.vx x)
        = some ((s.vx x + s.vx y) % 256))
    ∧ ((exec s m (0x8000 + x * 256 + y * 16 + 5) rnd).map (fun r => r.1.vx 15)
        = some (if s.vx y ≤ s.vx x then 1 else 0))
    ∧ (x ≠ 15 → (exec s m (0x8000 + x * 256 + y * 16 + 5) rnd).map (fun r => r.1.vx x)
        = some (wrap8sub (s.vx x) (s.vx y))) := by
  have h4 : exec s m (0x8000 + x * 256 + y * 16 + 4) rnd
      = some (((s.setVx x (aluRes 4 (s.vx x) (s.vx y))).setVf
          (aluFlag 4 (s.vx x) (s.vx y)), m)) := by
    rw [exec_at_mode8 s m _ rnd (by unfold mode; omega),
      exec8_alu s x y 4 hx hy (Or.inl rfl)]
    rfl
  have h5 : exec s m (0x8000 + x * 256 + y * 16 + 5) rnd
      = some (((s.setVx x (aluRes 5 (s.vx x) (s.vx y))).setVf
          (aluFlag 5 (s.vx x) (s.vx y)), m)) := by
    rw [exec_at_mode8 s m _ rnd (by unfold mode; omega),
      exec8_alu s x y 5 hx hy (Or.inr (Or.inl rfl))]
    rfl
  refine ⟨?_, ?_, ?_, ?_⟩
  · rw [h4]
    simp [Interp.setVf, aluFlag]
  · intro hxf
    rw [h4]
    simp [Interp.setVf, Interp.setVx, aluRes, hxf]
  · rw [h5]
    simp only [Option.map_some', Option.some.injEq, Interp.setVf, aluFlag]
    norm_num
    rcases Nat.lt_or_ge (s.vx x) (s.vx y) with hlt | hge
    · rw [if_pos hlt, if_neg (by omega)]
    · rw [if_neg (by omega), if_pos (by omega)]
  · intro hxf
    rw [h5]
    simp [Interp.setVf, Interp.setVx, aluRes, hxf]

/-- Concrete state for the C6 witness: `V1 = 7`, `V2 = 9`. -/
def c6State : Interp := (initInterp.setVx 1 7).setVx 2 9

/-- Witness for C6 at a concrete input: with `V1 = 7`, `V2 = 9`, `8124`
gives `V1 = 16`, `VF = 0`, and `8125` gives `V1 = (7 + 256 - 9) % 256 =
254` with `VF = 0` (borrow). -/
theorem add_sub_semantics_witness :
    ((exec c6State memZero (0x8000 + 1 * 256 + 2 * 16 + 4) 0).map (fun r => r.1.vx 15)
        = some (if 255 < c6State.vx 1 + c6State.vx 2 then 1 else 0))
    ∧ ((1 : Nat) ≠ 15 → (exec c6State memZero (0x8000 + 1 * 256 + 2 * 16 + 4) 0).map
        (fun r => r.1.vx 1) = some ((c6State.vx 1 + c6State.vx 2) % 256))
    ∧ ((exec c6State memZero (0x8000 + 1 * 256 + 2 * 16 + 5) 0).map (fun r => r.1.vx 15)
        = some (if c6State.vx 2 ≤ c6State.vx 1 then 1 else 0))
    ∧ ((1 : Nat) ≠ 15 → (exec c6State memZero (0x8000 + 1 * 256 + 2 * 16 + 5) 0).map
        (fun r => r.1.vx 1) = some (wrap8sub (c6State.vx 1) (c6State.vx 2))) :=
  add_sub_semantics c6State memZero 0 1 2 (by norm_num) (by norm_num)

end Chip8

namespace Chip8

/-! ## C7: Fx55 / Fx65 round-trip -/

/-- The `0x55` loop writes `vx[0..j)` to `vi .. vi + j - 1` and changes no
other byte (all addresses in range). -/
theorem storeRegs_spec (s : Interp) (vi j : Nat) (m : Mem) (h : vi + j ≤ MAX_SIZE) :
    storeRegs s vi j m
      = some (fun a => if vi ≤ a ∧ a < vi + j then s.vx (a - vi) else m a) := by
  induction j with
  | zero =>
    unfold storeRegs
    congr 1
    funext a
    rw [if_neg (by omega)]
  | succ j ih =>
    unfold storeRegs
    rw [ih (by omega)]
    have h1 : vi + j < 65536 := by unfold MAX_SIZE at h; omega
    have h2 : vi + j < MAX_SIZE := by omega
    simp only [Option.some_bind, u16add, if_pos h1, Mem.write, if_pos h2]
    congr 1
    funext a
    by_cases ha : a = vi + j
    · rw [if_pos ha, if_pos (by omega)]
      subst ha
      rw [Nat.add_sub_cancel_left]
    · rw [if_neg ha]
      by_cases hb : vi ≤ a ∧ a < vi + j
      · rw [if_pos hb, if_pos (by omega)]
      · rw [if_neg hb, if_neg (by omega)]

/-- The `0x65` loop loads `vi .. vi + j - 1` into `vx[0..j)`, leaving all
other registers and every other field of the state unchanged. -/
theorem loadRegs_spec (vi : Nat) (m : Mem) (j : Nat) (s : Interp) (h : vi + j ≤ MAX_SIZE) :
    loadRegs vi m j s
      = some { s with vx := fun i => if i < j then m (vi + i) else s.vx i } := by
  induction j with
  | zero =>
    unfold loadRegs
    have h0 : (fun i => if i < 0 then m (vi + i) else s.vx i) = s.vx := by
      funext i
      rw [if_neg (by omega)]
    rw [h0]
  | succ j ih =>
    unfold loadRegs
    rw [ih (by omega)]
    have h1 : vi + j < 65536 := by unfold MAX_SIZE at h; omega
    have h2 : vi + j < MAX_SIZE := by omega
    simp only [Option.some_bind, u16add, if_pos h1, Mem.read, if_pos h2,
      Option.some_bind, Option.map_some']
    unfold Interp.setVx
    dsimp only
    have hfun : (fun i => if i = j then m (vi + j) else if i < j then m (vi + i) else s.vx i)
        = (fun i => if i < j + 1 then m (vi + i) else s.vx i) := by
      funext i
      by_cases hij : i = j
      · rw [hij, if_pos rfl, if_pos (show j < j + 1 by omega)]
      · rw [if_neg hij]
        by_cases hlt : i < j
        · rw [if_pos hlt, if_pos (show i < j + 1 by omega)]
        · rw [if_neg hlt, if_neg (show ¬ i < j + 1 by omega)]
    rw [hfun]

/-- C7 (amended): for every `k < 16` and every state whose index register
satisfies `I + k ≤ 0xFFF` (so the whole block lies inside the 4096-byte
memory), executing `Fx55` then `Fx65` with `X = k` at the unchanged `I`
returns the interpreter state exactly to its pre-pair value — all sixteen
registers (those beyond `Vk` untouched throughout) and `I` included — while
the memory keeps the stored block. For `I + k > 0xFFF` the block transfer
itself is a fatal out-of-range access, which is why the address bound is
required. -/
theorem store_load_roundtrip (s : Interp) (m : Mem) (rnd k : Nat)
    (hk : k < 16) (hrange : s.vi + k ≤ 0xFFF) :
    ∃ m1 : Mem, exec s m (0xF055 + k * 256) rnd = some (s, m1)
      ∧ exec s m1 (0xF065 + k * 256) rnd = some (s, m1) := by
  have hle : s.vi + (k + 1) ≤ MAX_SIZE := by unfold MAX_SIZE; omega
  refine ⟨fun a => if s.vi ≤ a ∧ a < s.vi + (k + 1) then s.vx (a - s.vi) else m a, ?_, ?_⟩
  · rw [exec_at_modeF s m _ rnd (by unfold mode; omega)]
    unfold execF
    rw [show nnByte (0xF055 + k * 256) = 0x55 from by unfold nnByte; omega,
      show xNib (0xF055 + k * 256) = k from by unfold xNib; omega]
    simp only [show (0x55 : Nat) ≠ 0x07 by decide, show (0x55 : Nat) ≠ 0x15 by decide,
      show (0x55 : Nat) ≠ 0x18 by decide, show (0x55 : Nat) ≠ 0x1E by decide,
      show (0x55 : Nat) ≠ 0x0A by decide, show (0x55 : Nat) ≠ 0x29 by decide,
      show (0x55 : Nat) ≠ 0x33 by decide, reduceIte]
    rw [storeRegs_spec s s.vi (k + 1) m hle]
    rfl
  · rw [exec_at_modeF _ _ _ rnd (by unfold mode; omega)]
    unfold execF
    rw [show nnByte (0xF065 + k * 256) = 0x65 from by unfold nnByte; omega,
      show xNib (0xF065 + k * 256) = k from by unfold xNib; omega]
    simp only [show (0x65 : Nat) ≠ 0x07 by decide, show (0x65 : Nat) ≠ 0x15 by decide,
      show (0x65 : Nat) ≠ 0x18 by decide, show (0x65 : Nat) ≠ 0x1E by decide,
      show (0x65 : Nat) ≠ 0x0A by decide, show (0x65 : Nat) ≠ 0x29 by decide,
      show (0x65 : Nat) ≠ 0x33 by decide, show (0x65 : Nat) ≠ 0x55 by decide, reduceIte]
    rw [loadRegs_spec s.vi _ (k + 1) s hle]
    simp only [Option.map_some']
    have hvx : (fun i => if i < k + 1
        then (fun a => if s.vi ≤ a ∧ a < s.vi + (k + 1) then s.vx (a - s.vi) else m a) (s.vi + i)
        else s.vx i) = s.vx := by
      funext i
      by_cases hik : i < k + 1
      · rw [if_pos hik]
        beta_reduce
        rw [if_pos (show s.vi ≤ s.vi + i ∧ s.vi + i < s.vi + (k + 1) by omega),
          Nat.add_sub_cancel_left]
      · rw [if_neg hik]
    rw [hvx]

/-- Concrete state refuting C7 as stated: `I = 0xFFF`. -/
def c7State : Interp := { initInterp with vi := 0xFFF }

/-- C7 counterexample: the round-trip does not hold for *every* value of
`I`. With `I = 0xFFF` and `k = 1`, `F155` must write `V1` to address
`0x1000`, past the end of memory: the instruction is fatal (no resulting
state at all), so no round-trip takes place. -/
theorem store_load_roundtrip_counterexample :
    ¬ (∀ (s : Interp) (m : Mem) (rnd k : Nat), k < 16 →
        ∃ s1 m1 s2 m2, exec s m (0xF055 + k * 256) rnd = some (s1, m1)
          ∧ exec s1 m1 (0xF065 + k * 256) rnd = some (s2, m2)
          ∧ (∀ i, i ≤ k → s2.vx i = s.vx i)
          ∧ (∀ i, k < i → s1.vx i = s.vx i ∧ s2.vx i = s.vx i)
          ∧ s1.vi = s.vi ∧ s2.vi = s.vi) := by
  intro h
  obtain ⟨s1, m1, s2, m2, h1, -⟩ := h c7State memZero 0 1 (by norm_num)
  have hnone : exec c7State memZero (0xF055 + 1 * 256) 0 = none := rfl
  rw [hnone] at h1
  exact Option.noConfusion h1

/-- Witness for C7's amended theorem at a concrete input: the round-trip
for `k = 2` at `I = 0x500` on the fresh interpreter. -/
theorem store_load_roundtrip_witness :
    ∃ m1 : Mem,
      exec { initInterp with vi := 0x500 } memZero (0xF055 + 2 * 256) 0
        = some ({ initInterp with vi := 0x500 }, m1)
      ∧ exec { initInterp with vi := 0x500 } m1 (0xF065 + 2 * 256) 0
        = some ({ initInterp with vi := 0x500 }, m1) :=
  store_load_roundtrip { initInterp with vi := 0x500 } memZero 0 2
    (by norm_num) (by norm_num [initInterp])

end Chip8

namespace Chip8

/-! ## C9: the halt flag and `step` -/

theorem stop_set_keyHeld (s : Interp) :
    ({ s with stop := true } : Interp).keyHeld = s.keyHeld := rfl

theorem getFirstKeyPressed_stop (s : Interp) :
    getFirstKeyPressed { s with stop := true } = getFirstKeyPressed s := rfl

theorem storeRegs_stop (s : Interp) (vi : Nat) (j : Nat) (m : Mem) :
    storeRegs { s with stop := true } vi j m = storeRegs s vi j m := by
  induction j with
  | zero => rfl
  | succ j ih =>
    unfold storeRegs
    rw [ih]

theorem loadRegs_stop (vi : Nat) (m : Mem) (j : Nat) (s : Interp) :
    loadRegs vi m j { s with stop := true }
      = (loadRegs vi m j s).map (fun s' => { s' with stop := true }) := by
  induction j with
  | zero => rfl
  | succ j ih =>
    unfold loadRegs
    rw [ih]
    cases hl : loadRegs vi m j s with
    | none => rfl
    | some s' =>
      simp only [Option.map_some', Option.some_bind]
      cases hu : u16add vi j with
      | none => rfl
      | some a =>
        simp only [Option.some_bind]
        cases hr : m.read a with
        | none => rfl
        | some v => rfl

theorem drawBit_stop (vxv vyv byte r c : Nat) (s : Interp) (m : Mem) :
    drawBit vxv vyv byte r c { s with stop := true } m
      = (drawBit vxv vyv byte r c s m).map (fun p => ({ p.1 with stop := true }, p.2)) := by
  unfold drawBit
  by_cases hb : byte / 2 ^ (7 - c) % 2 = 1
  · rw [if_pos hb, if_pos hb]
    cases hx : u8add vxv c with
    | none => rfl
    | some px =>
      simp only [Option.some_bind]
      cases hy : u8add vyv r with
      | none => rfl
      | some py =>
        simp only [Option.some_bind]
        by_cases hin : px < 64 ∧ py < 32
        · rw [if_pos hin, if_pos hin]
          cases hr : readPixel m px py with
          | none => rfl
          | some cur =>
            simp only [Option.some_bind]
            cases hw : writePixel m px py with
            | none =>
              by_cases hc : cur = 1 <;> simp [hc, hw]
            | some m' =>
              by_cases hc : cur = 1 <;> simp [hc, hw] <;> rfl
        · rw [if_neg hin, if_neg hin]
          rfl
  · rw [if_neg hb, if_neg hb]
    rfl

theorem drawCols_stop (vxv vyv byte r : Nat) (c : Nat) (s : Interp) (m : Mem) :
    drawCols vxv vyv byte r c { s with stop := true } m
      = (drawCols vxv vyv byte r c s m).map (fun p => ({ p.1 with stop := true }, p.2)) := by
  induction c with
  | zero => rfl
  | succ c ih =>
    unfold drawCols
    rw [ih]
    cases hd : drawCols vxv vyv byte r c s m with
    | none => rfl
    | some sm =>
      simp only [Option.map_some', Option.some_bind]
      exact drawBit_stop vxv vyv byte r c sm.1 sm.2

theorem drawRows_stop (vxv vyv vi : Nat) (n : Nat) (s : Interp) (m : Mem) :
    drawRows vxv vyv vi n { s with stop := true } m
      = (drawRows vxv vyv vi n s m).map (fun p => ({ p.1 with stop := true }, p.2)) := by
  induction n with
  | zero => rfl
  | succ n ih =>
    unfold drawRows
    rw [ih]
    cases hd : drawRows vxv vyv vi n s m with
    | none => rfl
    | some sm =>
      simp only [Option.map_some', Option.some_bind]
      cases hr : Mem.read sm.2 (vi + n) with
      | none => rfl
      | some byte =>
        simp only [Option.some_bind]
        exact drawCols_stop vxv vyv byte n 8 sm.1 sm.2

theorem exec0_stop (s : Interp) (m : Mem) (op : Nat) :
    exec0 { s with stop := true } m op
      = (exec0 s m op).map (fun p => ({ p.1 with stop := true }, p.2)) := by
  unfold exec0
  by_cases h1 : nnnAddr op = 0x0E0
  · rw [if_pos h1, if_pos h1]
    cases hc : clearLoop m 0xFF <;> rfl
  · rw [if_neg h1, if_neg h1]
    by_cases h2 : nnnAddr op = 0x0EE
    · rw [if_pos h2, if_pos h2]
      unfold Interp.stackPop
      rw [stop_set_sc]
      by_cases hsc : s.sc = 0
      · rw [if_pos hsc, if_pos hsc]
        rfl
      · rw [if_neg hsc, if_neg hsc]
        rfl
    · rw [if_neg h2, if_neg h2]
      rfl

theorem exec8_stop (s : Interp) (op : Nat) :
    exec8 { s with stop := true } op
      = (exec8 s op).map (fun s' => { s' with stop := true }) := by
  unfold exec8
  dsimp only
  by_cases h0 : nNib op = 0x0
  · rw [if_pos h0, if_pos h0]; rfl
  rw [if_neg h0, if_neg h0]
  by_cases h1 : nNib op = 0x1
  · rw [if_pos h1, if_pos h1]; rfl
  rw [if_neg h1, if_neg h1]
  by_cases h2 : nNib op = 0x2
  · rw [if_pos h2, if_pos h2]; rfl
  rw [if_neg h2, if_neg h2]
  by_cases h3 : nNib op = 0x3
  · rw [if_pos h3, if_pos h3]; rfl
  rw [if_neg h3, if_neg h3]
  by_cases h4 : nNib op = 0x4
  · rw [if_pos h4, if_pos h4]; rfl
  rw [if_neg h4, if_neg h4]
  by_cases h5 : nNib op = 0x5
  · rw [if_pos h5, if_pos h5]; rfl
  rw [if_neg h5, if_neg h5]
  by_cases h7 : nNib op = 0x7
  · rw [if_pos h7, if_pos h7]; rfl
  rw [if_neg h7, if_neg h7]
  by_cases h6 : nNib op = 0x6
  · rw [if_pos h6, if_pos h6]; rfl
  rw [if_neg h6, if_neg h6]
  by_cases hE : nNib op = 0xE
  · rw [if_pos hE, if_pos hE]; rfl
  rw [if_neg hE, if_neg hE]
  rfl

theorem execE_stop (s : Interp) (m : Mem) (op : Nat) :
    execE { s with stop := true } m op
      = (execE s m op).map (fun p => ({ p.1 with stop := true }, p.2)) := by
  unfold execE
  dsimp only
  by_cases hlt : s.vx (xNib op) < 16
  · rw [if_pos hlt, if_pos hlt]
    by_cases h9E : nnByte op = 0x9E
    · rw [if_pos h9E, if_pos h9E]
      by_cases hh : s.keyHeld (s.vx (xNib op)) = true
      · rw [if_pos hh, if_pos hh]
        cases hu : u16add s.pc 2 <;> rfl
      · rw [if_neg hh, if_neg hh]; rfl
    rw [if_neg h9E, if_neg h9E]
    by_cases hA1 : nnByte op = 0xA1
    · rw [if_pos hA1, if_pos hA1]
      by_cases hh : s.keyHeld (s.vx (xNib op)) = true
      · rw [if_pos hh, if_pos hh]; rfl
      · rw [if_neg hh, if_neg hh]
        cases hu : u16add s.pc 2 <;> rfl
    rw [if_neg hA1, if_neg hA1]
    rfl
  · rw [if_neg hlt, if_neg hlt]
    rfl

theorem execF_stop (s : Interp) (m : Mem) (op : Nat) :
    execF { s with stop := true } m op
      = (execF s m op).map (fun p => ({ p.1 with stop := true }, p.2)) := by
  unfold execF
  dsimp only
  rw [getFirstKeyPressed_stop, storeRegs_stop, loadRegs_stop]
  by_cases h07 : nnByte op = 0x07
  · rw [if_pos h07, if_pos h07]; rfl
  rw [if_neg h07, if_neg h07]
  by_cases h15 : nnByte op = 0x15
  · rw [if_pos h15, if_pos h15]; rfl
  rw [if_neg h15, if_neg h15]
  by_cases h18 : nnByte op = 0x18
  · rw [if_pos h18, if_pos h18]; rfl
  rw [if_neg h18, if_neg h18]
  by_cases h1E : nnByte op = 0x1E
  · rw [if_pos h1E, if_pos h1E]; rfl
  rw [if_neg h1E, if_neg h1E]
  by_cases h0A : nnByte op = 0x0A
  · rw [if_pos h0A, if_pos h0A]
    cases hk : getFirstKeyPressed s with
    | some k => rfl
    | none =>
      cases hu : u16sub s.pc 2 <;> rfl
  rw [if_neg h0A, if_neg h0A]
  by_cases h29 : nnByte op = 0x29
  · rw [if_pos h29, if_pos h29]
    cases hm : u16mul (s.vx (xNib op)) FONT_CHAR_SIZE with
    | none => rfl
    | some off =>
      simp only [Option.some_bind]
      cases ha : u16add FONT_LOC off <;> rfl
  rw [if_neg h29, if_neg h29]
  by_cases h33 : nnByte op = 0x33
  · rw [if_pos h33, if_pos h33]
    cases hw1 : m.write s.vi (s.vx (xNib op) / 100 % 10) with
    | none => rfl
    | some m1 =>
      simp only [Option.some_bind]
      cases ha1 : u16add s.vi 1 with
      | none => rfl
      | some a1 =>
        simp only [Option.some_bind]
        cases hw2 : m1.write a1 (s.vx (xNib op) / 10 % 10) with
        | none => rfl
        | some m2 =>
          simp only [Option.some_bind]
          cases ha2 : u16add s.vi 2 with
          | none => rfl
          | some a2 =>
            simp only [Option.some_bind]
            cases hw3 : m2.write a2 (s.vx (xNib op) / 1 % 10) <;> rfl
  rw [if_neg h33, if_neg h33]
  by_cases h55 : nnByte op = 0x55
  · rw [if_pos h55, if_pos h55]
    cases hs : storeRegs s s.vi (xNib op + 1) m <;> rfl
  rw [if_neg h55, if_neg h55]
  by_cases h65 : nnByte op = 0x65
  · rw [if_pos h65, if_pos h65]
    cases hl : loadRegs s.vi m (xNib op + 1) s <;> rfl
  rw [if_neg h65, if_neg h65]
  rfl

/-- `exec` never reads the halt flag, and every arm carries it through
unchanged (the all-zero word sets it): running `exec` on a state with the
flag forced on is the same as running it with the flag in its original
position and forcing the flag on afterwards. -/
theorem exec_stop (s : Interp) (m : Mem) (op rnd : Nat) :
    exec { s with stop := true } m op rnd
      = (exec s m op rnd).map (fun p => ({ p.1 with stop := true }, p.2)) := by
  unfold exec
  rw [stop_set_vx, stop_set_pc, stop_set_vi]
  by_cases h0 : op = 0
  · rw [if_pos h0, if_pos h0]; rfl
  rw [if_neg h0, if_neg h0]
  by_cases hm0 : mode op = 0x0
  · rw [if_pos hm0, if_pos hm0]; exact exec0_stop s m op
  rw [if_neg hm0, if_neg hm0]
  by_cases hm1 : mode op = 0x1
  · rw [if_pos hm1, if_pos hm1]; rfl
  rw [if_neg hm1, if_neg hm1]
  by_cases hm2 : mode op = 0x2
  · rw [if_pos hm2, if_pos hm2]
    unfold Interp.stackPush
    rw [stop_set_sc]
    by_cases hsc : s.sc < STACK_SIZE
    · rw [if_pos hsc, if_pos hsc]; rfl
    · rw [if_neg hsc, if_neg hsc]; rfl
  rw [if_neg hm2, if_neg hm2]
  by_cases hm3 : mode op = 0x3
  · rw [if_pos hm3, if_pos hm3]
    by_cases hv : s.vx (xNib op) = nnByte op
    · rw [if_pos hv, if_pos hv]
      cases hu : u16add s.pc 2 <;> rfl
    · rw [if_neg hv, if_neg hv]; rfl
  rw [if_neg hm3, if_neg hm3]
  by_cases hm4 : mode op = 0x4
  · rw [if_pos hm4, if_pos hm4]
    by_cases hv : s.vx (xNib op) ≠ nnByte op
    · rw [if_pos hv, if_pos hv]
      cases hu : u16add s.pc 2 <;> rfl
    · rw [if_neg hv, if_neg hv]; rfl
  rw [if_neg hm4, if_neg hm4]
  by_cases hm5 : mode op = 0x5
  · rw [if_pos hm5, if_pos hm5]
    by_cases hn : nNib op ≠ 0
    · rw [if_pos hn, if_pos hn]; rfl
    · rw [if_neg hn, if_neg hn]
      by_cases hv : s.vx (xNib op) = s.vx (yNib op)
      · rw [if_pos hv, if_pos hv]
        cases hu : u16add s.pc 2 <;> rfl
      · rw [if_neg hv, if_neg hv]; rfl
  rw [if_neg hm5, if_neg hm5]
  by_cases hm6 : mode op = 0x6
  · rw [if_pos hm6, if_pos hm6]; rfl
  rw [if_neg hm6, if_neg hm6]
  by_cases hm7 : mode op = 0x7
  · rw [if_pos hm7, if_pos hm7]; rfl
  rw [if_neg hm7, if_neg hm7]
  by_cases hm8 : mode op = 0x8
  · rw [if_pos hm8, if_pos hm8, exec8_stop]
    cases h8 : exec8 s op <;> rfl
  rw [if_neg hm8, if_neg hm8]
  by_cases hm9 : mode op = 0x9
  · rw [if_pos hm9, if_pos hm9]
    by_cases hn : nNib op ≠ 0
    · rw [if_pos hn, if_pos hn]; rfl
    · rw [if_neg hn, if_neg hn]
      by_cases hv : s.vx (xNib op) ≠ s.vx (yNib op)
      · rw [if_pos hv, if_pos hv]
        cases hu : u16add s.pc 2 <;> rfl
      · rw [if_neg hv, if_neg hv]; rfl
  rw [if_neg hm9, if_neg hm9]
  by_cases hmA : mode op = 0xA
  · rw [if_pos hmA, if_pos hmA]; rfl
  rw [if_neg hmA, if_neg hmA]
  by_cases hmB : mode op = 0xB
  · rw [if_pos hmB, if_pos hmB]
    cases hu : u16add (nnnAddr op) (s.vx 0) <;> rfl
  rw [if_neg hmB, if_neg hmB]
  by_cases hmC : mode op = 0xC
  · rw [if_pos hmC, if_pos hmC]; rfl
  rw [if_neg hmC, if_neg hmC]
  by_cases hmD : mode op = 0xD
  · rw [if_pos hmD, if_pos hmD]
    cases hu : u16add s.vi (nNib op) with
    | none => rfl
    | some b =>
      simp only [Option.some_bind]
      exact drawRows_stop (s.vx (xNib op)) (s.vx (yNib op)) s.vi (nNib op) s m
  rw [if_neg hmD, if_neg hmD]
  by_cases hmE : mode op = 0xE
  · rw [if_pos hmE, if_pos hmE]; exact execE_stop s m op
  rw [if_neg hmE, if_neg hmE]
  by_cases hmF : mode op = 0xF
  · rw [if_pos hmF, if_pos hmF]; exact execF_stop s m op
  rw [if_neg hmF, if_neg hmF]
  rfl

/-- C9 (amended): the halt flag is one-way — no instruction ever clears
it — but `step` never consults it: calling `step` on a halted state
fetches, decodes and executes the next word exactly as it would with the
flag clear, carrying the flag through. The spec's "no further observable
effects" therefore relies on the host honouring its contract to stop
calling `step` once the flag is set; a host that keeps calling `step`
observes further state and memory changes. -/
theorem step_ignores_halt_flag (s : Interp) (m : Mem) (rnd : Nat) :
    step { s with stop := true } m rnd
      = (step s m rnd).map (fun p => ({ p.1 with stop := true }, p.2)) := by
  unfold step
  rw [stop_set_pc]
  cases ho : m.read16 s.pc with
  | none => rfl
  | some op =>
    simp only [Option.some_bind]
    cases hu : u16add s.pc 2 with
    | none => rfl
    | some p =>
      simp only [Option.some_bind]
      exact exec_stop { s with pc := p } m op rnd

/-- Concrete halted state refuting C9 as stated. -/
def c9State : Interp := { initInterp with stop := true }

/-- Memory whose word at `0x200` is `0x6005` (set `V0` to 5). -/
def c9Memory : Mem := fun a => if a = 0x200 then 0x60 else if a = 0x201 then 0x05 else 0

/-- C9 counterexample: with the halt flag already set, a further call to
`step` on a program word `0x6005` succeeds and writes 5 into `V0` — the
engine does produce further observable effects when the host keeps calling
`step` after halt, because `step` performs no halt-flag check. -/
theorem halted_step_counterexample :
    ¬ (∀ (s : Interp) (m : Mem) (rnd : Nat), s.stop = true →
        ∀ v, (step s m rnd).map (fun p => p.1.vx 0) = some v → v = s.vx 0) := by
  intro h
  have h5 : (step c9State c9Memory 0).map (fun p => p.1.vx 0) = some 5 := rfl
  have h0 : c9State.vx 0 = 0 := rfl
  have := h c9State c9Memory 0 rfl 5 h5
  rw [h0] at this
  exact absurd this (by norm_num)

end Chip8

namespace Chip8

/-! ## C1 / C3: the Dxyn sprite draw -/

theorem div_pow_mod_two (n j : Nat) : n / 2 ^ j % 2 = if n.testBit j then 1 else 0 := by
  cases htb : n.testBit j
  · rw [Nat.testBit_to_div_mod] at htb
    simp only [decide_eq_false_iff_not] at htb
    have hlt : n / 2 ^ j % 2 < 2 := Nat.mod_lt _ (by norm_num)
    simp only [Bool.false_eq_true, if_false]
    omega
  · rw [Nat.testBit_to_div_mod] at htb
    simp only [decide_eq_true_eq] at htb
    simp only [if_true]
    omega

theorem xor_self_bit (b j : Nat) : (b ^^^ 2 ^ j) / 2 ^ j % 2 = 1 - b / 2 ^ j % 2 := by
  rw [div_pow_mod_two, div_pow_mod_two, Nat.testBit_xor, Nat.testBit_two_pow_self]
  cases hb : b.testBit j <;> simp

theorem xor_other_bit (b j j' : Nat) (h : j ≠ j') :
    (b ^^^ 2 ^ j') / 2 ^ j % 2 = b / 2 ^ j % 2 := by
  rw [div_pow_mod_two, div_pow_mod_two, Nat.testBit_xor,
    Nat.testBit_two_pow_of_ne (fun he => h he.symm)]
  cases hb : b.testBit j <;> simp

theorem posToByteAddr_bounds (X Y : Nat) (hx : X < 64) (hy : Y < 32) :
    DISPLAY_LOC ≤ posToByteAddr X Y ∧ posToByteAddr X Y < MAX_SIZE := by
  unfold posToByteAddr posToBitIndex DISPLAY_LOC MAX_SIZE
  omega

theorem posToBitOffset_lt (X Y : Nat) : posToBitOffset X Y < 8 := by
  unfold posToBitOffset
  omega

theorem pos_inj (X Y X' Y' : Nat) (hx : X < 64) (hy : Y < 32) (hx' : X' < 64)
    (hy' : Y' < 32) (ha : posToByteAddr X Y = posToByteAddr X' Y')
    (ho : posToBitOffset X Y = posToBitOffset X' Y') : X = X' ∧ Y = Y' := by
  unfold posToByteAddr posToBitIndex at ha
  unfold posToBitOffset posToBitIndex at ho
  omega

theorem pixVal_le_one (m : Mem) (x y : Nat) : pixVal m x y ≤ 1 := by
  unfold pixVal
  omega

theorem readPixel_spec (m : Mem) (X Y : Nat) (hx : X < 64) (hy : Y < 32) :
    readPixel m X Y = some (pixVal m X Y) := by
  unfold readPixel Mem.read pixVal
  rw [if_pos (posToByteAddr_bounds X Y hx hy).2]
  rfl

/-- `write_pixel` on an in-bounds coordinate: it toggles exactly the bit of
`(X', Y')` and leaves every other framebuffer bit and every other memory
byte unchanged. -/
theorem writePixel_spec (m : Mem) (X' Y' : Nat) (hx' : X' < 64) (hy' : Y' < 32) :
    ∃ m2, writePixel m X' Y' = some m2
      ∧ (∀ a, a ≠ posToByteAddr X' Y' → m2 a = m a)
      ∧ (∀ X Y, X < 64 → Y < 32 →
          ((X = X' ∧ Y = Y') → pixVal m2 X Y = 1 - pixVal m X Y)
          ∧ (¬(X = X' ∧ Y = Y') → pixVal m2 X Y = pixVal m X Y)) := by
  have hlt := (posToByteAddr_bounds X' Y' hx' hy').2
  refine ⟨fun a => if a = posToByteAddr X' Y'
      then m (posToByteAddr X' Y') ^^^ 2 ^ (7 - posToBitOffset X' Y') else m a, ?_, ?_, ?_⟩
  · unfold writePixel Mem.read Mem.write
    rw [if_pos hlt]
    simp only [Option.some_bind]
    rw [if_pos hlt]
  · intro a ha
    dsimp only
    rw [if_neg ha]
  · intro X Y hx hy
    constructor
    · rintro ⟨rfl, rfl⟩
      unfold pixVal
      dsimp only
      rw [if_pos rfl]
      exact xor_self_bit _ _
    · intro hne
      unfold pixVal
      dsimp only
      by_cases ha : posToByteAddr X Y = posToByteAddr X' Y'
      · rw [if_pos ha]
        have hoff : posToBitOffset X Y ≠ posToBitOffset X' Y' := fun ho =>
          hne (pos_inj X Y X' Y' hx hy hx' hy' ha ho)
        have h7 : 7 - posToBitOffset X Y ≠ 7 - posToBitOffset X' Y' := by
          have o1 := posToBitOffset_lt X Y
          have o2 := posToBitOffset_lt X' Y'
          omega
        rw [ha]
        exact xor_other_bit _ _ _ h7
      · rw [if_neg ha]

/-- One inner-loop iteration of the draw: either the sprite bit is set and
the clipped coordinate is on screen — in which case exactly that pixel is
toggled, the collision test reads its pre-toggle value, and `VF` is set to
1 exactly on a collision — or nothing happens. -/
theorem drawBit_spec (vxv vyv byte r c : Nat) (s : Interp) (m : Mem)
    (s' : Interp) (m' : Mem) (h : drawBit vxv vyv byte r c s m = some (s', m')) :
    (byte / 2 ^ (7 - c) % 2 = 1 ∧ vxv + c < 64 ∧ vyv + r < 32
      ∧ (∀ a, a ≠ posToByteAddr (vxv + c) (vyv + r) → m' a = m a)
      ∧ (∀ X Y, X < 64 → Y < 32 →
          ((X = vxv + c ∧ Y = vyv + r) → pixVal m' X Y = 1 - pixVal m X Y)
          ∧ (¬(X = vxv + c ∧ Y = vyv + r) → pixVal m' X Y = pixVal m X Y))
      ∧ s' = (if pixVal m (vxv + c) (vyv + r) = 1 then s.setVf 1 else s))
    ∨ (¬(byte / 2 ^ (7 - c) % 2 = 1 ∧ vxv + c < 64 ∧ vyv + r < 32)
        ∧ s' = s ∧ m' = m) := by
  unfold drawBit at h
  by_cases hbit : byte / 2 ^ (7 - c) % 2 = 1
  · rw [if_pos hbit] at h
    unfold u8add at h
    by_cases hpx : vxv + c < 256
    · rw [if_pos hpx] at h
      simp only [Option.some_bind] at h
      by_cases hpy : vyv + r < 256
      · rw [if_pos hpy] at h
        simp only [Option.some_bind] at h
        by_cases hin : vxv + c < 64 ∧ vyv + r < 32
        · rw [if_pos hin] at h
          rw [readPixel_spec m _ _ hin.1 hin.2] at h
          simp only [Option.some_bind] at h
          obtain ⟨m2, hw, hother, hpix⟩ := writePixel_spec m (vxv + c) (vyv + r) hin.1 hin.2
          rw [hw] at h
          simp only [Option.map_some', Option.some.injEq, Prod.mk.injEq] at h
          obtain ⟨hs', hm'⟩ := h
          subst hm'
          left
          exact ⟨hbit, hin.1, hin.2, hother, hpix, hs'.symm⟩
        · rw [if_neg hin] at h
          simp only [Option.some.injEq, Prod.mk.injEq] at h
          right
          exact ⟨fun hc => hin ⟨hc.2.1, hc.2.2⟩, h.1.symm, h.2.symm⟩
      · rw [if_neg hpy] at h
        exact absurd h (by simp)
    · rw [if_neg hpx] at h
      exact absurd h (by simp)
  · rw [if_neg hbit] at h
    simp only [Option.some.injEq, Prod.mk.injEq] at h
    right
    exact ⟨fun hc => hbit hc.1, h.1.symm, h.2.symm⟩

end Chip8

namespace Chip8

theorem setVf_vx_ne (s : Interp) (d i : Nat) (h : i ≠ 15) : (s.setVf d).vx i = s.vx i := by
  unfold Interp.setVf
  dsimp only
  rw [if_neg h]

theorem setVf_vx_15 (s : Interp) (d : Nat) : (s.setVf d).vx 15 = d := by
  unfold Interp.setVf
  dsimp only
  rw [if_pos rfl]

/-- Full characterisation of the inner (column) sprite loop over the first
`c` columns of row `r`: which bytes can change, how each on-screen pixel
changes (the set sprite bits of the row, clipped, each toggled once), that
only `VF` among the registers can change, and that `VF` is set to 1 exactly
when some drawn pixel of the row was already set in the memory the row
started from — otherwise it is left alone. -/
theorem drawCols_spec (vxv vyv byte r : Nat) :
    ∀ (c : Nat) (s : Interp) (m : Mem) (s' : Interp) (m' : Mem),
      drawCols vxv vyv byte r c s m = some (s', m') →
      ((∀ a, m' a ≠ m a → ∃ cc, cc < c ∧ byte / 2 ^ (7 - cc) % 2 = 1
          ∧ vxv + cc < 64 ∧ vyv + r < 32 ∧ a = posToByteAddr (vxv + cc) (vyv + r))
      ∧ (∀ X Y, X < 64 → Y < 32 →
          ((∃ cc, cc < c ∧ byte / 2 ^ (7 - cc) % 2 = 1 ∧ X = vxv + cc ∧ Y = vyv + r)
            → pixVal m' X Y = 1 - pixVal m X Y)
          ∧ ((¬ ∃ cc, cc < c ∧ byte / 2 ^ (7 - cc) % 2 = 1 ∧ X = vxv + cc ∧ Y = vyv + r)
            → pixVal m' X Y = pixVal m X Y))
      ∧ (s'.stack = s.stack ∧ s'.sc = s.sc ∧ s'.vi = s.vi ∧ s'.pc = s.pc
          ∧ s'.dt = s.dt ∧ s'.st = s.st ∧ s'.keyHeld = s.keyHeld ∧ s'.stop = s.stop
          ∧ ∀ i, i ≠ 15 → s'.vx i = s.vx i)
      ∧ ((∃ cc, cc < c ∧ byte / 2 ^ (7 - cc) % 2 = 1 ∧ vxv + cc < 64 ∧ vyv + r < 32
            ∧ pixVal m (vxv + cc) (vyv + r) = 1) → s'.vx 15 = 1)
      ∧ ((¬ ∃ cc, cc < c ∧ byte / 2 ^ (7 - cc) % 2 = 1 ∧ vxv + cc < 64 ∧ vyv + r < 32
            ∧ pixVal m (vxv + cc) (vyv + r) = 1) → s'.vx 15 = s.vx 15)) := by
  intro c
  induction c with
  | zero =>
    intro s m s' m' h
    unfold drawCols at h
    simp only [Option.some.injEq, Prod.mk.injEq] at h
    obtain ⟨hs0, hm0⟩ := h
    subst hs0
    subst hm0
    refine ⟨?_, ?_, ?_, ?_, ?_⟩
    · intro a ha
      exact absurd rfl ha
    · intro X Y _ _
      exact ⟨fun hex => absurd hex (by rintro ⟨cc, hcc, -⟩; omega), fun _ => rfl⟩
    · exact ⟨rfl, rfl, rfl, rfl, rfl, rfl, rfl, rfl, fun _ _ => rfl⟩
    · rintro ⟨cc, hcc, -⟩
      omega
    · intro _
      rfl
  | succ c ih =>
    intro s m s' m' h
    unfold drawCols at h
    cases hmid : drawCols vxv vyv byte r c s m with
    | none =>
      rw [hmid] at h
      exact absurd h (by simp)
    | some sm =>
      obtain ⟨s1, m1⟩ := sm
      rw [hmid] at h
      simp only [Option.some_bind] at h
      obtain ⟨IH0, IH1, IHf, IH4, IH5⟩ := ih s m s1 m1 hmid
      rcases drawBit_spec vxv vyv byte r c s1 m1 s' m' h with
        ⟨hbit, hx, hy, hother, hpix, hs'⟩ | ⟨hno, hs', hm'⟩
      · -- the bit is set and on screen: the pixel at (vxv+c, vyv+r) is drawn
        have hmid_pix : pixVal m1 (vxv + c) (vyv + r) = pixVal m (vxv + c) (vyv + r) :=
          (IH1 _ _ hx hy).2 (by rintro ⟨cc, hcc, -, hxe, -⟩; omega)
        refine ⟨?_, ?_, ?_, ?_, ?_⟩
        · intro a ha
          by_cases h1 : m' a = m1 a
          · obtain ⟨cc, hcc, hb, hbx, hby, he⟩ := IH0 a (fun he => ha (h1.trans he))
            exact ⟨cc, by omega, hb, hbx, hby, he⟩
          · have haddr : a = posToByteAddr (vxv + c) (vyv + r) := by
              by_contra hne
              exact h1 (hother a hne)
            exact ⟨c, by omega, hbit, hx, hy, haddr⟩
        · intro X Y hX hY
          constructor
          · rintro ⟨cc, hcc, hb, rfl, rfl⟩
            by_cases hcceq : cc = c
            · subst hcceq
              rw [(hpix _ _ hX hY).1 ⟨rfl, rfl⟩]
              rw [(IH1 _ _ hX hY).2 (by rintro ⟨cc', hcc', -, hxe, -⟩; omega)]
            · have hlt : cc < c := by omega
              rw [(hpix _ _ hX hY).2 (by rintro ⟨hxe, -⟩; omega)]
              exact (IH1 _ _ hX hY).1 ⟨cc, hlt, hb, rfl, rfl⟩
          · intro hnex
            have hne : ¬(X = vxv + c ∧ Y = vyv + r) := by
              rintro ⟨rfl, rfl⟩
              exact hnex ⟨c, by omega, hbit, rfl, rfl⟩
            rw [(hpix _ _ hX hY).2 hne]
            exact (IH1 _ _ hX hY).2 (by
              rintro ⟨cc, hcc, hb, hxe, hye⟩
              exact hnex ⟨cc, by omega, hb, hxe, hye⟩)
        · by_cases hcol : pixVal m1 (vxv + c) (vyv + r) = 1
          · rw [hs', if_pos hcol]
            exact ⟨IHf.1, IHf.2.1, IHf.2.2.1, IHf.2.2.2.1, IHf.2.2.2.2.1,
              IHf.2.2.2.2.2.1, IHf.2.2.2.2.2.2.1, IHf.2.2.2.2.2.2.2.1,
              fun i hi => (setVf_vx_ne s1 1 i hi).trans (IHf.2.2.2.2.2.2.2.2 i hi)⟩
          · rw [hs', if_neg hcol]
            exact IHf
        · rintro ⟨cc, hcc, hb, hbx, hby, hp⟩
          by_cases hcol : pixVal m1 (vxv + c) (vyv + r) = 1
          · rw [hs', if_pos hcol]
            exact setVf_vx_15 s1 1
          · rw [hs', if_neg hcol]
            by_cases hcceq : cc = c
            · subst hcceq
              exact absurd (hmid_pix.trans hp) hcol
            · exact IH4 ⟨cc, by omega, hb, hbx, hby, hp⟩
        · intro hnex
          have hcol : ¬ pixVal m1 (vxv + c) (vyv + r) = 1 := by
            intro hc
            exact hnex ⟨c, by omega, hbit, hx, hy, hmid_pix ▸ hc⟩
          rw [hs', if_neg hcol]
          exact IH5 (by
            rintro ⟨cc, hcc, hb, hbx, hby, hp⟩
            exact hnex ⟨cc, by omega, hb, hbx, hby, hp⟩)
      · -- the bit is clear or the pixel is clipped: nothing happens
        subst hs' hm'
        refine ⟨?_, ?_, IHf, ?_, ?_⟩
        · intro a ha
          obtain ⟨cc, hcc, hb, hbx, hby, he⟩ := IH0 a ha
          exact ⟨cc, by omega, hb, hbx, hby, he⟩
        · intro X Y hX hY
          constructor
          · rintro ⟨cc, hcc, hb, rfl, rfl⟩
            by_cases hcceq : cc = c
            · subst hcceq
              exact absurd ⟨hb, hX, hY⟩ hno
            · exact (IH1 _ _ hX hY).1 ⟨cc, by omega, hb, rfl, rfl⟩
          · intro hnex
            exact (IH1 _ _ hX hY).2 (by
              rintro ⟨cc, hcc, hb, hxe, hye⟩
              exact hnex ⟨cc, by omega, hb, hxe, hye⟩)
        · rintro ⟨cc, hcc, hb, hbx, hby, hp⟩
          by_cases hcceq : cc = c
          · subst hcceq
            exact absurd ⟨hb, hbx, hby⟩ hno
          · exact IH4 ⟨cc, by omega, hb, hbx, hby, hp⟩
        · intro hnex
          exact IH5 (by
            rintro ⟨cc, hcc, hb, hbx, hby, hp⟩
            exact hnex ⟨cc, by omega, hb, hbx, hby, hp⟩)

end Chip8

namespace Chip8

/-- Full characterisation of the outer (row) sprite loop: memory changes
stay inside the framebuffer; every on-screen pixel that changes lies at an
unwrapped coordinate `(vxv + col, vyv + row)` of a drawn sprite cell; only
`VF` among the registers can change; and `VF` is set to 1 exactly when some
pixel was toggled from set to clear (a collision), otherwise it keeps its
entry value. -/
theorem drawRows_spec (vxv vyv vi : Nat) :
    ∀ (n : Nat) (s : Interp) (m : Mem) (s' : Interp) (m' : Mem),
      drawRows vxv vyv vi n s m = some (s', m') →
      ((∀ a, m' a ≠ m a → DISPLAY_LOC ≤ a ∧ a < MAX_SIZE)
      ∧ (∀ X Y, X < 64 → Y < 32 → pixVal m' X Y ≠ pixVal m X Y →
          ∃ rr cc, rr < n ∧ cc < 8 ∧ X = vxv + cc ∧ Y = vyv + rr)
      ∧ (s'.stack = s.stack ∧ s'.sc = s.sc ∧ s'.vi = s.vi ∧ s'.pc = s.pc
          ∧ s'.dt = s.dt ∧ s'.st = s.st ∧ s'.keyHeld = s.keyHeld ∧ s'.stop = s.stop
          ∧ ∀ i, i ≠ 15 → s'.vx i = s.vx i)
      ∧ ((∃ X Y, X < 64 ∧ Y < 32 ∧ pixVal m X Y = 1 ∧ pixVal m' X Y = 0) → s'.vx 15 = 1)
      ∧ ((∀ X Y, X < 64 → Y < 32 → ¬(pixVal m X Y = 1 ∧ pixVal m' X Y = 0)) →
          s'.vx 15 = s.vx 15)) := by
  intro n
  induction n with
  | zero =>
    intro s m s' m' h
    unfold drawRows at h
    simp only [Option.some.injEq, Prod.mk.injEq] at h
    obtain ⟨hs0, hm0⟩ := h
    subst hs0
    subst hm0
    refine ⟨?_, ?_, ?_, ?_, ?_⟩
    · intro a ha
      exact absurd rfl ha
    · intro X Y _ _ hne
      exact absurd rfl hne
    · exact ⟨rfl, rfl, rfl, rfl, rfl, rfl, rfl, rfl, fun _ _ => rfl⟩
    · rintro ⟨X, Y, -, -, h1, h0⟩
      omega
    · intro _
      rfl
  | succ n ih =>
    intro s m s' m' h
    unfold drawRows at h
    cases hmid : drawRows vxv vyv vi n s m with
    | none =>
      rw [hmid] at h
      exact absurd h (by simp)
    | some sm =>
      obtain ⟨s1, m1⟩ := sm
      rw [hmid] at h
      simp only [Option.some_bind] at h
      cases hrd : Mem.read m1 (vi + n) with
      | none =>
        rw [hrd] at h
        exact absurd h (by simp)
      | some byte =>
        rw [hrd] at h
        simp only [Option.some_bind] at h
        obtain ⟨IH0, IH1, IHf, IH4, IH5⟩ := ih s m s1 m1 hmid
        obtain ⟨C0, C1, Cf, C4, C5⟩ := drawCols_spec vxv vyv byte n 8 s1 m1 s' m' h
        refine ⟨?_, ?_, ?_, ?_, ?_⟩
        · intro a ha
          by_cases h1 : m' a = m1 a
          · exact IH0 a (fun he => ha (h1.trans he))
          · obtain ⟨cc, -, -, hbx, hby, he⟩ := C0 a h1
            rw [he]
            exact posToByteAddr_bounds _ _ hbx hby
        · intro X Y hX hY hne
          by_cases h1 : pixVal m' X Y = pixVal m1 X Y
          · obtain ⟨rr, cc, hrr, hcc, hxe, hye⟩ :=
              IH1 X Y hX hY (fun he => hne (h1.trans he))
            exact ⟨rr, cc, by omega, hcc, hxe, hye⟩
          · have hhit : ∃ cc, cc < 8 ∧ byte / 2 ^ (7 - cc) % 2 = 1
                ∧ X = vxv + cc ∧ Y = vyv + n := by
              by_contra hno
              exact h1 ((C1 X Y hX hY).2 hno)
            obtain ⟨cc, hcc, -, hxe, hye⟩ := hhit
            exact ⟨n, cc, by omega, hcc, hxe, hye⟩
        · refine ⟨Cf.1.trans IHf.1, Cf.2.1.trans IHf.2.1, Cf.2.2.1.trans IHf.2.2.1,
            Cf.2.2.2.1.trans IHf.2.2.2.1, Cf.2.2.2.2.1.trans IHf.2.2.2.2.1,
            Cf.2.2.2.2.2.1.trans IHf.2.2.2.2.2.1,
            Cf.2.2.2.2.2.2.1.trans IHf.2.2.2.2.2.2.1,
            Cf.2.2.2.2.2.2.2.1.trans IHf.2.2.2.2.2.2.2.1,
            fun i hi => (Cf.2.2.2.2.2.2.2.2 i hi).trans (IHf.2.2.2.2.2.2.2.2 i hi)⟩
        · rintro ⟨X, Y, hX, hY, h1, h0⟩
          by_cases hm1 : pixVal m1 X Y = pixVal m X Y
          · have hd : pixVal m' X Y ≠ pixVal m1 X Y := by
              rw [h0, hm1, h1]
              omega
            have hhit : ∃ cc, cc < 8 ∧ byte / 2 ^ (7 - cc) % 2 = 1
                ∧ X = vxv + cc ∧ Y = vyv + n := by
              by_contra hno
              exact hd ((C1 X Y hX hY).2 hno)
            obtain ⟨cc, hcc, hb, hxe, hye⟩ := hhit
            subst hxe
            subst hye
            exact C4 ⟨cc, hcc, hb, hX, hY, hm1.trans h1⟩
          · have hm10 : pixVal m1 X Y = 0 := by
              have hle := pixVal_le_one m1 X Y
              have hle' := pixVal_le_one m X Y
              omega
            have h15 : s1.vx 15 = 1 := IH4 ⟨X, Y, hX, hY, h1, hm10⟩
            by_cases hrc : ∃ cc, cc < 8 ∧ byte / 2 ^ (7 - cc) % 2 = 1
                ∧ vxv + cc < 64 ∧ vyv + n < 32 ∧ pixVal m1 (vxv + cc) (vyv + n) = 1
            · exact C4 hrc
            · rw [C5 hrc]
              exact h15
        · intro hno
          have hA : ∀ X Y, X < 64 → Y < 32 → ¬(pixVal m X Y = 1 ∧ pixVal m1 X Y = 0) := by
            rintro X Y hX hY ⟨h1, h0⟩
            by_cases hd : pixVal m' X Y = pixVal m1 X Y
            · exact hno X Y hX hY ⟨h1, hd.trans h0⟩
            · have hhit : ∃ cc, cc < 8 ∧ byte / 2 ^ (7 - cc) % 2 = 1
                  ∧ X = vxv + cc ∧ Y = vyv + n := by
                by_contra hnh
                exact hd ((C1 X Y hX hY).2 hnh)
              obtain ⟨cc, -, -, -, hye⟩ := hhit
              have hdm : pixVal m1 X Y ≠ pixVal m X Y := by
                rw [h0, h1]
                omega
              obtain ⟨rr, cc', hrr, -, -, hye'⟩ := IH1 X Y hX hY hdm
              omega
          have h151 : s1.vx 15 = s.vx 15 := IH5 hA
          have hB : ¬ ∃ cc, cc < 8 ∧ byte / 2 ^ (7 - cc) % 2 = 1
              ∧ vxv + cc < 64 ∧ vyv + n < 32 ∧ pixVal m1 (vxv + cc) (vyv + n) = 1 := by
            rintro ⟨cc, hcc, hb, hbx, hby, hp⟩
            have hmp : pixVal m1 (vxv + cc) (vyv + n) = pixVal m (vxv + cc) (vyv + n) := by
              by_contra hd
              obtain ⟨rr, cc', hrr, -, -, hye⟩ := IH1 _ _ hbx hby hd
              omega
            have hp' : pixVal m' (vxv + cc) (vyv + n) = 1 - pixVal m1 (vxv + cc) (vyv + n) :=
              (C1 _ _ hbx hby).1 ⟨cc, hcc, hb, rfl, rfl⟩
            refine hno _ _ hbx hby ⟨hmp ▸ hp, ?_⟩
            rw [hp', hp]
          rw [C5 hB]
          exact h151

end Chip8

namespace Chip8

/-- Destructure a successful `Dxyn` execution into its row loop. -/
theorem exec_draw_elim (s : Interp) (m : Mem) (rnd op : Nat) (s' : Interp) (m' : Mem)
    (hmode : mode op = 0xD) (hexec : exec s m op rnd = some (s', m')) :
    drawRows (s.vx (xNib op)) (s.vx (yNib op)) s.vi (nNib op) s m = some (s', m') := by
  rw [exec_at_modeD s m op rnd hmode] at hexec
  cases hu : u16add s.vi (nNib op) with
  | none =>
    rw [hu] at hexec
    exact absurd hexec (by simp)
  | some b =>
    rw [hu] at hexec
    simpa using hexec

/-- C3: when a `Dxyn` draw executes successfully, every memory byte it
changes lies in the framebuffer region, and every display pixel it toggles
sits at a coordinate `(Vx + col, Vy + row)` computed as a plain (unwrapped)
sum, with `col < 8`, `row < n`, and the coordinate inside the 64×32 screen:
off-screen sprite cells are not drawn at all and nothing wraps to the
opposite edge. (A per-pixel coordinate sum that would overflow the `u8`
arithmetic is a fatal overflow in the embedding, not a wrap, so no wrapped
pixel can ever be produced.) -/
theorem draw_clips_offscreen_pixels (s : Interp) (m : Mem) (rnd op : Nat)
    (s' : Interp) (m' : Mem) (hmode : mode op = 0xD)
    (hexec : exec s m op rnd = some (s', m')) :
    (∀ a, m' a ≠ m a → DISPLAY_LOC ≤ a ∧ a < MAX_SIZE)
    ∧ (∀ X Y, X < 64 → Y < 32 → pixVal m' X Y ≠ pixVal m X Y →
        ∃ rr cc, rr < nNib op ∧ cc < 8
          ∧ X = s.vx (xNib op) + cc ∧ Y = s.vx (yNib op) + rr) := by
  obtain ⟨R0, R1, -, -, -⟩ :=
    drawRows_spec (s.vx (xNib op)) (s.vx (yNib op)) s.vi (nNib op) s m s' m'
      (exec_draw_elim s m rnd op s' m' hmode hexec)
  exact ⟨R0, R1⟩

/-- Witness for C3 at a concrete input: the two-row draw `D012` from the
fresh interpreter over all-zero memory (an all-zero sprite) succeeds and
the conclusions hold at it. -/
theorem draw_clips_offscreen_pixels_witness :
    (∀ a, memZero a ≠ memZero a → DISPLAY_LOC ≤ a ∧ a < MAX_SIZE)
    ∧ (∀ X Y, X < 64 → Y < 32 → pixVal memZero X Y ≠ pixVal memZero X Y →
        ∃ rr cc, rr < nNib 0xD012 ∧ cc < 8
          ∧ X = initInterp.vx (xNib 0xD012) + cc ∧ Y = initInterp.vx (yNib 0xD012) + rr) :=
  draw_clips_offscreen_pixels initInterp memZero 0 0xD012 initInterp memZero rfl rfl

/-- C1 (amended): when a `Dxyn` draw executes successfully, if any
in-bounds framebuffer pixel is toggled from 1 to 0 (a collision, judged
against the pre-instruction framebuffer — the collision test reads each
pixel before toggling it), `VF` is 1 afterwards; if no such collision
occurs across the whole sprite, `VF` keeps its pre-instruction value (the
code never writes 0 to `VF`, so `VF` is 0 after a collision-free draw only
if it was 0 before). -/
theorem draw_collision_sets_vf (s : Interp) (m : Mem) (rnd op : Nat)
    (s' : Interp) (m' : Mem) (hmode : mode op = 0xD)
    (hexec : exec s m op rnd = some (s', m')) :
    ((∃ X Y, X < 64 ∧ Y < 32 ∧ pixVal m X Y = 1 ∧ pixVal m' X Y = 0) → s'.vx 15 = 1)
    ∧ ((∀ X Y, X < 64 → Y < 32 → ¬(pixVal m X Y = 1 ∧ pixVal m' X Y = 0)) →
        s'.vx 15 = s.vx 15) := by
  obtain ⟨-, -, -, R3, R4⟩ :=
    drawRows_spec (s.vx (xNib op)) (s.vx (yNib op)) s.vi (nNib op) s m s' m'
      (exec_draw_elim s m rnd op s' m' hmode hexec)
  exact ⟨R3, R4⟩

/-- Concrete state refuting the original C1: `VF` already 1 before the
draw. -/
def c1State : Interp := { initInterp with vx := fun i => if i = 15 then 1 else 0 }

/-- C1 counterexample: the original claim says a collision-free draw leaves
`VF = 0`. Starting with `VF = 1` and drawing the all-zero one-row sprite
`D001` over all-zero memory (no pixel is toggled at all, so certainly no
1→0 toggle), the draw succeeds and `VF` is still 1 afterwards: the `0xD`
arm never clears `VF`. -/
theorem draw_collision_sets_vf_counterexample :
    ¬ (∀ (s : Interp) (m : Mem) (rnd op : Nat) (s' : Interp) (m' : Mem),
        mode op = 0xD → exec s m op rnd = some (s', m') →
        (∀ X Y, X < 64 → Y < 32 → ¬(pixVal m X Y = 1 ∧ pixVal m' X Y = 0)) →
        s'.vx 15 = 0) := by
  intro h
  have hex : exec c1State memZero 0xD001 0 = some (c1State, memZero) := rfl
  have hnc : ∀ X Y, X < 64 → Y < 32 →
      ¬(pixVal memZero X Y = 1 ∧ pixVal memZero X Y = 0) := by
    rintro X Y _ _ ⟨h1, h0⟩
    omega
  have h0 := h c1State memZero 0 0xD001 c1State memZero rfl hex hnc
  have h1 : c1State.vx 15 = 1 := rfl
  rw [h1] at h0
  exact absurd h0 (by norm_num)

/-- Witness for C1's amended theorem at a concrete input: the one-row
all-zero-sprite draw `D001` from the fresh interpreter. -/
theorem draw_collision_sets_vf_witness :
    ((∃ X Y, X < 64 ∧ Y < 32 ∧ pixVal memZero X Y = 1 ∧ pixVal memZero X Y = 0)
        → initInterp.vx 15 = 1)
    ∧ ((∀ X Y, X < 64 → Y < 32 → ¬(pixVal memZero X Y = 1 ∧ pixVal memZero X Y = 0)) →
        initInterp.vx 15 = initInterp.vx 15) :=
  draw_collision_sets_vf initInterp memZero 0 0xD001 initInterp memZero rfl rfl

end Chip8
